import Mathlib

/-!
Verification of the go-ur reward and referral-distribution state transition.

The reward core (signup classifier, referral-chain resolver, reward schedule,
management-fee predicate, state-transition hook, extended header counters and
miner reward hook) is exercised by `core/state_processor_test.go`; the hook
itself is modelled here from the specification, faithful to its words, and
checked against the behaviour the tests pin down.  `node/defaults.go` and the
`bzzhash` command are embedded directly from their sources.
-/

namespace GoUR

/-- Account identifier (20-byte address in the source, abstracted to `Nat`). -/
abbrev Address := Nat

/-- Arbitrary-precision non-negative wei amount (`*big.Int` in the source). -/
abbrev Wei := Nat

/-- One UR, `10^18` wei (`common.Ether` in the source). -/
def oneUR : Wei := 10 ^ 18

/-- Modelled from the spec: `BlockReward = 7 UR`, the base per-block issuance
to the coinbase (`core.BlockReward` in the tests). -/
def BlockReward : Wei := 7 * oneUR

/-- Management-fee threshold, `10_000 UR` (`core.Big10k` in the tests). -/
def Big10k : Wei := 10000 * oneUR

/-- Hard-coded maximum ancestor depth of the referral chain. -/
def maxAncestors : Nat := 7

/-- Transaction fields consumed by the reward core. -/
structure Tx where
  sender : Address
  toAddr : Address
  value : Wei
  data : List Nat
deriving Repr, DecidableEq

/-- Receiver and UR-future-fund addresses paired with a privileged sender
(`core.ReceiverAddressPair` in the tests). -/
structure ReceiverAddressPair where
  Receiver : Address
  URFF : Address
deriving Repr, DecidableEq

/-- Fully-scaled set of reward amounts for one scaling tier. -/
structure RewardSet where
  SignupReward : Wei
  MembersSignupRewards : List Wei
  TotalSignupRewards : Wei
  ManagementFee : Wei
  URFutureFundFee : Wei
  MinerReward : Wei
  Total : Wei
deriving Repr, DecidableEq

/-- Well-formedness of a reward set: seven ancestor amounts, cached sums
consistent.  The spec fixes `MinerReward` to one block-reward unit. -/
def RewardSet.WF (r : RewardSet) : Prop :=
  r.MembersSignupRewards.length = 7 ∧
  r.TotalSignupRewards = r.MembersSignupRewards.sum ∧
  r.Total = r.SignupReward + r.TotalSignupRewards + r.URFutureFundFee + r.MinerReward

/-- Scaling-tier tags (`core.FullRatio` etc. in the tests): a closed
enumeration of rational multipliers applied to base reward amounts. -/
inductive RewardFactor where
  | full
  | half
  | quarter
deriving Repr, DecidableEq

/-- Denominator of a scaling tier's rational multiplier. -/
def RewardFactor.den : RewardFactor → Nat
  | .full => 1
  | .half => 2
  | .quarter => 4

/-- Scale one base amount by a tier's rational (integer division). -/
def scaleAmount (f : RewardFactor) (w : Wei) : Wei := w / f.den

/-- Modelled from the spec: the base reward schedule at `Full` ratio.  The
spec fixes `signupReward = 2000 UR`, `urFutureFundFee = 5000 UR`,
`managementFee = 1000 UR`, `minerReward` = one block-reward unit, and an
ancestor pool of seven declining amounts; the tests fix the pool's sum at
`2000 UR` (fixed per-signup issuance of `9000 UR` beside the miner bonus) but
the individual seven amounts are not in the visible source, so one admissible
declining assignment is used. -/
def baseRewards : RewardSet where
  SignupReward := 2000 * oneUR
  MembersSignupRewards :=
    [800 * oneUR, 400 * oneUR, 300 * oneUR, 200 * oneUR,
     100 * oneUR, 100 * oneUR, 100 * oneUR]
  TotalSignupRewards := 2000 * oneUR
  ManagementFee := 1000 * oneUR
  URFutureFundFee := 5000 * oneUR
  MinerReward := BlockReward
  Total := 9007 * oneUR

/-- Modelled from the spec: scale every base amount by the tier's rational,
recomputing the cached sums; the per-signup miner bonus stays one
block-reward unit (spec §3 `RewardSet` and §4.5 step 9). -/
def scaleRewardSet (f : RewardFactor) (r : RewardSet) : RewardSet where
  SignupReward := scaleAmount f r.SignupReward
  MembersSignupRewards := r.MembersSignupRewards.map (scaleAmount f)
  TotalSignupRewards := scaleAmount f r.TotalSignupRewards
  ManagementFee := scaleAmount f r.ManagementFee
  URFutureFundFee := scaleAmount f r.URFutureFundFee
  MinerReward := r.MinerReward
  Total := scaleAmount f r.SignupReward + scaleAmount f r.TotalSignupRewards +
    scaleAmount f r.URFutureFundFee + r.MinerReward

/-- One reduction-table entry (`core.ReductionFactors` elements): a minimum
cumulative-signup threshold paired with a ratio tag. -/
structure ReductionFactor where
  NSignups : Nat
  Factor : RewardFactor
deriving Repr, DecidableEq

/-- Modelled from the spec: the reduction table, thresholds in descending
order.  The concrete thresholds are not in the visible source (the tests
only show them to be multiples of `100000`); representative values are
used. -/
def ReductionFactors : List ReductionFactor :=
  [⟨2000000, .quarter⟩, ⟨1000000, .half⟩]

/-- Modelled from the spec: return the ratio of the first reduction entry
whose threshold is at most `n`; `Full` when none matches
(`core.GetFactor`). -/
def GetFactor (n : Nat) : RewardFactor :=
  ((ReductionFactors.find? fun f => decide (f.NSignups ≤ n)).map
    ReductionFactor.Factor).getD .full

/-- Precomputed scaled reward table (`core.ScaledRewards` in the tests). -/
def ScaledRewards (f : RewardFactor) : RewardSet := scaleRewardSet f baseRewards

/-- The reward schedule: cumulative signups to the applicable reward set. -/
def defaultSchedule (n : Nat) : RewardSet := ScaledRewards (GetFactor n)

/-- Modelled from the spec: the management-fee predicate, true iff
`nSignups == 0` or the integer quotient `totalWei / nSignups` is at most
`10_000 UR`. -/
def managementFeePredicate (nSignups totalWei : Nat) : Bool :=
  decide (nSignups = 0 ∨ totalWei / nSignups ≤ Big10k)

/-- Management fee actually credited for one signup, given the counters
visible before it (`core.CalculateTxManagementFee` in the tests). -/
def CalculateTxManagementFee (r : RewardSet) (nSignups totalWei : Nat) : Wei :=
  if managementFeePredicate nSignups totalWei then r.ManagementFee else 0

/-! ## Referral-chain resolver and signup classifier -/

/-- Big-endian byte-string to integer. -/
def beBytesToNat (bs : List Nat) : Nat := bs.foldl (fun acc b => acc * 256 + b) 0

/-- Pointer carried by a member-origin signup payload: the block number and
hash of the transaction that signed up the current sender. -/
structure SignupRef where
  blockNumber : Nat
  txHash : Nat
deriving Repr, DecidableEq

/-- Modelled from the spec: decode a 41-byte member-signup payload
(byte 0 `0x01`, bytes 1..9 big-endian block number, bytes 9..41 transaction
hash); any other shape carries no pointer. -/
def decodeSignupRef (d : List Nat) : Option SignupRef :=
  if d.length = 41 ∧ d.head? = some 1 then
    some ⟨beBytesToNat ((d.drop 1).take 8), beBytesToNat (d.drop 9)⟩
  else none

/-- Modelled from the spec: walk the payload pointers through the
`ChainReader`, collecting the recipients of the referenced signup
transactions nearest-first; stop at the fuel bound, at a payload with no
pointer (privileged-origin root or malformed), or at an unresolvable
pointer. -/
def resolveAncestors (reader : Nat → Nat → Option Tx) : Nat → List Nat → List Address
  | 0, _ => []
  | fuel + 1, d =>
    match decodeSignupRef d with
    | none => []
    | some ref =>
      match reader ref.blockNumber ref.txHash with
      | none => []
      | some rtx => rtx.toAddr :: resolveAncestors reader fuel rtx.data

/-- Modelled from the spec: walk the referral chain to its root to recover
the privileged sender a member signup descends from; the walk is bounded by
the supplied fuel (the chain is finite). -/
def resolveRoot (reader : Nat → Nat → Option Tx) : Nat → Tx → Address
  | 0, tx => tx.sender
  | fuel + 1, tx =>
    match decodeSignupRef tx.data with
    | none => tx.sender
    | some ref =>
      match reader ref.blockNumber ref.txHash with
      | none => tx.sender
      | some rtx => resolveRoot reader fuel rtx

/-- Signup classification of a transaction. -/
inductive SignupKind where
  | notSignup
  | privilegedSignup
  | memberSignup
deriving Repr, DecidableEq

/-- Modelled from the spec: classify a transaction.  Not a signup when the
data is empty, its first byte is not `0x01`, the value is zero, or the
sender is not registered; a privileged-origin signup on a 1-byte payload
from a privileged sender; a member-origin signup on a 41-byte payload from
an existing member. -/
def classify (isPrivileged : Address → Bool) (isMember : Address → Bool)
    (tx : Tx) : SignupKind :=
  if tx.data.head? = some 1 ∧ tx.value ≠ 0 then
    if isPrivileged tx.sender = true ∧ tx.data.length = 1 then .privilegedSignup
    else if isMember tx.sender = true ∧ tx.data.length = 41 then .memberSignup
    else .notSignup
  else .notSignup

/-! ## State-transition hook -/

/-- Chain-derived read capabilities threaded through the hook: membership of
an address (it has an on-chain signup transaction), the `ChainReader`
transaction lookup, a bound on referral-chain length for the root walk, and
the reward schedule. -/
structure ChainConfig where
  isMember : Address → Bool
  reader : Nat → Nat → Option Tx
  maxDepth : Nat
  schedule : Nat → RewardSet

/-- State owned by one chain evaluation: balances, the two extended header
counters, and the consensus-constant privileged mapping
(`core.PrivilegedAddressesReceivers`), fixed at genesis. -/
structure ChainState where
  balances : Address → Wei
  nSignups : Nat
  totalWei : Wei
  priv : Address → Option ReceiverAddressPair

/-- Credit `v` wei to `a` (`state.AddBalance`). -/
def addBalance (bal : Address → Wei) (a : Address) (v : Wei) : Address → Wei :=
  fun x => if x = a then bal x + v else bal x

/-- Debit `v` wei from `a` (the value-transfer side; callers ensure
sufficiency). -/
def subBalance (bal : Address → Wei) (a : Address) (v : Wei) : Address → Wei :=
  fun x => if x = a then bal x - v else bal x

/-- Apply a list of credits in order. -/
def creditList (bal : Address → Wei) : List (Address × Wei) → (Address → Wei)
  | [] => bal
  | p :: rest => creditList (addBalance bal p.1 p.2) rest

/-- Pair the resolved ancestors, nearest-first, with the per-depth reward
amounts; the pairing truncates at the shorter list. -/
def ancestorPairs (r : RewardSet) (anc : List Address) : List (Address × Wei) :=
  anc.zip r.MembersSignupRewards

/-- Sum of the ancestor credits actually paid. -/
def creditedAmount (r : RewardSet) (anc : List Address) : Wei :=
  ((ancestorPairs r anc).map Prod.snd).sum

/-- Undistributed remainder of the ancestor pool, credited to the
privileged entry's receiver. -/
def signupRemainder (r : RewardSet) (anc : List Address) : Wei :=
  r.TotalSignupRewards - creditedAmount r anc

/-- Modelled from the spec: the privileged entry a signup settles against.
Direct lookup for a privileged-origin signup; for a member-origin signup the
entry of the referral chain's root.  `none` (no reward effects) for
non-signups and for signup-shaped transactions whose root has no privileged
entry. -/
def signupEntry (cfg : ChainConfig) (priv : Address → Option ReceiverAddressPair)
    (tx : Tx) : Option ReceiverAddressPair :=
  match classify (fun a => (priv a).isSome) cfg.isMember tx with
  | .privilegedSignup => priv tx.sender
  | .memberSignup => priv (resolveRoot cfg.reader cfg.maxDepth tx)
  | .notSignup => none

/-- Modelled from the spec: the reward cascade for one signup (steps 4-10 of
the state-transition hook), applied on top of the already-performed value
transfer `bal0`: credit the signup reward to the new member, the future-fund
fee, the management fee when the predicate holds on the parent-visible
counters, the ancestor credits nearest-first, the undistributed remainder to
the receiver, and one additional `BlockReward` to the coinbase; bump the
running counters. -/
def applySignup (cfg : ChainConfig) (coinbase : Address) (st : ChainState)
    (tx : Tx) (entry : ReceiverAddressPair) (bal0 : Address → Wei) : ChainState :=
  let r := cfg.schedule st.nSignups
  let anc := resolveAncestors cfg.reader maxAncestors tx.data
  let mgmt := CalculateTxManagementFee r st.nSignups st.totalWei
  let bal1 := addBalance bal0 tx.toAddr r.SignupReward
  let bal2 := addBalance bal1 entry.URFF r.URFutureFundFee
  let bal3 := addBalance bal2 entry.Receiver mgmt
  let bal4 := creditList bal3 (ancestorPairs r anc)
  let bal5 := addBalance bal4 entry.Receiver (signupRemainder r anc)
  let bal6 := addBalance bal5 coinbase BlockReward
  { st with
      balances := bal6
      nSignups := st.nSignups + 1
      totalWei := st.totalWei + r.Total + mgmt }

/-- Modelled from the spec: apply one transaction: the standard value
transfer always, then the reward cascade when the transaction is a signup
with a resolvable privileged entry. -/
def applyTx (cfg : ChainConfig) (coinbase : Address) (st : ChainState)
    (tx : Tx) : ChainState :=
  let bal0 := addBalance (subBalance st.balances tx.sender tx.value) tx.toAddr tx.value
  match signupEntry cfg st.priv tx with
  | none => { st with balances := bal0 }
  | some entry => applySignup cfg coinbase st tx entry bal0

/-- Modelled from the spec: block finalization credits `BlockReward` once
unconditionally to the coinbase and adds it to `totalWei`. -/
def finalize (coinbase : Address) (st : ChainState) : ChainState :=
  { st with
      balances := addBalance st.balances coinbase BlockReward
      totalWei := st.totalWei + BlockReward }

/-- Modelled from the spec: apply a block: its transactions in order, then
finalization. -/
def applyBlock (cfg : ChainConfig) (coinbase : Address) (st : ChainState)
    (txs : List Tx) : ChainState :=
  finalize coinbase (txs.foldl (applyTx cfg coinbase) st)

/-- A block as the importer sees it: coinbase, transactions, and the two
extended header counters it declares. -/
structure BlockData where
  coinbase : Address
  txs : List Tx
  headerNSignups : Nat
  headerTotalWei : Wei

/-- Modelled from the spec: block import validation recomputes the expected
counters by replaying the transactions and rejects the block when the
declared header values disagree. -/
def importBlock (cfg : ChainConfig) (st : ChainState) (b : BlockData) :
    Option ChainState :=
  let st' := applyBlock cfg b.coinbase st b.txs
  if st'.nSignups = b.headerNSignups ∧ st'.totalWei = b.headerTotalWei then
    some st'
  else none

/-- Whether a transaction is processed as a signup. -/
def isSignupTx (cfg : ChainConfig) (priv : Address → Option ReceiverAddressPair)
    (tx : Tx) : Bool :=
  (signupEntry cfg priv tx).isSome

/-- Number of transactions in a block processed as signups. -/
def signupCount (cfg : ChainConfig) (priv : Address → Option ReceiverAddressPair)
    (txs : List Tx) : Nat :=
  (txs.filter (isSignupTx cfg priv)).length

/-- Addresses whose balances a transaction may touch: its parties and, for a
signup, the entry's receiver and future-fund addresses and the resolved
ancestors. -/
def txParties (cfg : ChainConfig) (priv : Address → Option ReceiverAddressPair)
    (tx : Tx) : List Address :=
  tx.sender :: tx.toAddr ::
    match signupEntry cfg priv tx with
    | none => []
    | some e =>
      e.Receiver :: e.URFF :: resolveAncestors cfg.reader maxAncestors tx.data

/-- Sum, over the signups of a block, of the per-signup reward totals and of
the management fees actually credited, threading the running counters the
way the hook does. -/
def blockSignupSums (cfg : ChainConfig) (priv : Address → Option ReceiverAddressPair) :
    List Tx → Nat → Wei → Wei × Wei
  | [], _, _ => (0, 0)
  | tx :: rest, n, t =>
    match signupEntry cfg priv tx with
    | none => blockSignupSums cfg priv rest n t
    | some _ =>
      let r := cfg.schedule n
      let m := CalculateTxManagementFee r n t
      let s := blockSignupSums cfg priv rest (n + 1) (t + r.Total + m)
      (r.Total + s.1, m + s.2)

/-! ## node/defaults.go -/

/-- Default (relative) name of the IPC RPC socket (`node.DefaultIPCSocket`). -/
def DefaultIPCSocket : String := "gur.ipc"

/-- Default host interface for the HTTP RPC server (`node.DefaultHTTPHost`). -/
def DefaultHTTPHost : String := "localhost"

/-- Default TCP port for the HTTP RPC server (`node.DefaultHTTPPort`). -/
def DefaultHTTPPort : Nat := 9595

/-- Default host interface for the websocket RPC server (`node.DefaultWSHost`). -/
def DefaultWSHost : String := "localhost"

/-- Default TCP port for the websocket RPC server (`node.DefaultWSPort`). -/
def DefaultWSPort : Nat := 9596

/-! ## cmd/bzzhash main -/

/-- Outcome of `chunker.Split` as far as `bzzhash`'s `main` observes it. -/
inductive SplitResult where
  | ok : String → SplitResult
  | err : String → SplitResult
deriving Repr, DecidableEq

/-- Environment observed by `bzzhash`'s `main`: the program arguments
(`os.Args`, the program name included), whether `os.Open` succeeds on
`os.Args[1]`, and the tree chunker's result. -/
structure BzzhashEnv where
  args : List String
  openOk : Bool
  split : SplitResult
deriving Repr, DecidableEq

/-- Observable outcome of one `bzzhash` run. -/
structure BzzhashOutcome where
  exitCode : Nat
  stdout : List String
  stderr : List String
deriving Repr, DecidableEq

/-- The `bzzhash` command's `main`: with fewer than 2 arguments print usage
and exit 0; if the file cannot be opened print the error and exit 1;
otherwise split, printing a chunker error to stderr, and fall off `main`
(exit 0). -/
def bzzhashMain (env : BzzhashEnv) : BzzhashOutcome :=
  if env.args.length < 2 then
    { exitCode := 0, stdout := ["Usage: bzzhash <file name>"], stderr := [] }
  else if env.openOk = false then
    { exitCode := 1, stdout := ["Error opening file " ++ env.args.getD 1 ""], stderr := [] }
  else
    match env.split with
    | .err m => { exitCode := 0, stdout := [], stderr := [m] }
    | .ok k => { exitCode := 0, stdout := [k], stderr := [] }

/-! ## Concrete fixtures used to evaluate the model on closed inputs -/

/-- Concrete member-signup payload: marker byte, 8-byte big-endian block
number, 32-byte hash (single-byte values). -/
def memberData (bn h : Nat) : List Nat :=
  1 :: (List.replicate 7 0 ++ [bn]) ++ (List.replicate 31 0 ++ [h])

/-- Concrete privileged mapping: sender 1 pairs with receiver 2 and future
fund 3. -/
def privW : Address → Option ReceiverAddressPair :=
  fun a => if a = 1 then some ⟨2, 3⟩ else none

/-- Concrete transaction: privileged sender 1 signs up member 4. -/
def txA : Tx := ⟨1, 4, 1, [1]⟩

/-- Concrete transaction: member 4 signs up member 5, referencing txA at
block 2, hash 70. -/
def txB : Tx := ⟨4, 5, 1, memberData 2 70⟩

/-- Concrete transaction: member 5 signs up member 6, referencing txB at
block 3, hash 71. -/
def txC : Tx := ⟨5, 6, 1, memberData 3 71⟩

/-- Concrete chain reader serving txA and txB. -/
def readerW : Nat → Nat → Option Tx :=
  fun bn h =>
    if bn = 2 ∧ h = 70 then some txA
    else if bn = 3 ∧ h = 71 then some txB
    else none

/-- Concrete chain configuration for witnesses. -/
def cfgW : ChainConfig where
  isMember := fun a => decide (a = 4 ∨ a = 5)
  reader := readerW
  maxDepth := 16
  schedule := defaultSchedule

/-- Concrete fresh-chain state: privileged sender 1 holds `10^9` wei. -/
def stW : ChainState where
  balances := fun a => if a = 1 then 1000000000 else 0
  nSignups := 0
  totalWei := 0
  priv := privW

/-- Concrete privileged signup: sender 1 sends 1 wei to fresh address 8 with
data `[0x01]`. -/
def txSignupW : Tx := ⟨1, 8, 1, [1]⟩

end GoUR

namespace GoUR

/-! ## Helper lemmas -/

theorem addBalance_self (bal : Address → Wei) (a : Address) (v : Wei) :
    addBalance bal a v a = bal a + v := by
  simp [addBalance]

theorem addBalance_ne (bal : Address → Wei) (a : Address) (v : Wei) {x : Address}
    (h : x ≠ a) : addBalance bal a v x = bal x := by
  simp [addBalance, h]

theorem subBalance_self (bal : Address → Wei) (a : Address) (v : Wei) :
    subBalance bal a v a = bal a - v := by
  simp [subBalance]

theorem subBalance_ne (bal : Address → Wei) (a : Address) (v : Wei) {x : Address}
    (h : x ≠ a) : subBalance bal a v x = bal x := by
  simp [subBalance, h]

theorem creditList_of_not_mem (ps : List (Address × Wei)) (x : Address) :
    ∀ bal : Address → Wei, (∀ p ∈ ps, p.1 ≠ x) → creditList bal ps x = bal x := by
  induction ps with
  | nil => intro bal _; rfl
  | cons p ps ih =>
    intro bal h
    rw [creditList, ih _ fun q hq => h q (List.mem_cons_of_mem _ hq)]
    exact addBalance_ne bal p.1 p.2 (Ne.symm (h p (List.mem_cons_self _ _)))

theorem getD_mem_of_lt (l : List Address) (k : Nat) (h : k < l.length) :
    l.getD k 0 ∈ l := by
  induction l generalizing k with
  | nil => simp at h
  | cons a l ih =>
    cases k with
    | zero => simp [List.getD_cons_zero]
    | succ k =>
      simp only [List.length_cons, Nat.succ_lt_succ_iff] at h
      simp only [List.getD_cons_succ, List.mem_cons]
      exact Or.inr (ih k h)

theorem creditList_zip_getD (anc : List Address) :
    ∀ (amts : List Wei) (bal : Address → Wei) (k : Nat), anc.Nodup →
      k < anc.length → anc.length ≤ amts.length →
      creditList bal (anc.zip amts) (anc.getD k 0) =
        bal (anc.getD k 0) + amts.getD k 0 := by
  induction anc with
  | nil => intro amts bal k _ hk _; simp at hk
  | cons a anc ih =>
    intro amts bal k hnd hk hlen
    cases amts with
    | nil => simp at hlen
    | cons w amts =>
      simp only [List.length_cons, Nat.succ_le_succ_iff] at hlen
      rw [List.nodup_cons] at hnd
      cases k with
      | zero =>
        show creditList (addBalance bal a w) (anc.zip amts) a = bal a + w
        rw [creditList_of_not_mem _ _ _ fun p hp hpa =>
          hnd.1 (by rw [← hpa]; exact (List.of_mem_zip hp).1)]
        exact addBalance_self bal a w
      | succ k =>
        simp only [List.length_cons, Nat.succ_lt_succ_iff] at hk
        show creditList (addBalance bal a w) (anc.zip amts) (anc.getD k 0) =
          bal (anc.getD k 0) + amts.getD k 0
        rw [ih amts _ k hnd.2 hk hlen]
        rw [addBalance_ne _ _ _ fun hx =>
          hnd.1 (by rw [← hx]; exact getD_mem_of_lt anc k hk)]

theorem map_snd_zip_eq_take (l1 : List Address) :
    ∀ l2 : List Wei, ((l1.zip l2).map Prod.snd) = l2.take l1.length := by
  induction l1 with
  | nil => intro l2; simp
  | cons a l1 ih =>
    intro l2
    cases l2 with
    | nil => simp
    | cons b l2 => simp [ih l2]

theorem sum_take_le (l : List Nat) (k : Nat) : (l.take k).sum ≤ l.sum := by
  conv_rhs => rw [← List.take_append_drop k l]
  rw [List.sum_append]
  exact Nat.le_add_right _ _

theorem creditedAmount_eq_take_sum (r : RewardSet) (anc : List Address) :
    creditedAmount r anc = (r.MembersSignupRewards.take anc.length).sum := by
  rw [creditedAmount, ancestorPairs, map_snd_zip_eq_take]

theorem creditedAmount_le (r : RewardSet) (anc : List Address)
    (hwf : r.WF) : creditedAmount r anc ≤ r.TotalSignupRewards := by
  rw [creditedAmount_eq_take_sum, hwf.2.1]
  exact sum_take_le _ _

theorem resolveAncestors_length_le (reader : Nat → Nat → Option Tx) :
    ∀ (fuel : Nat) (d : List Nat), (resolveAncestors reader fuel d).length ≤ fuel := by
  intro fuel
  induction fuel with
  | zero => intro d; simp [resolveAncestors]
  | succ n ih =>
    intro d
    cases hd : decodeSignupRef d with
    | none => rw [resolveAncestors, hd]; simp
    | some ref =>
      cases hrd : reader ref.blockNumber ref.txHash with
      | none => rw [resolveAncestors, hd]; simp [hrd]
      | some rtx =>
        rw [resolveAncestors, hd]
        simp only [hrd, List.length_cons]
        exact Nat.succ_le_succ (ih rtx.data)

theorem applyTx_eq_of_none (cfg : ChainConfig) (cb : Address) (st : ChainState)
    (tx : Tx) (he : signupEntry cfg st.priv tx = none) :
    applyTx cfg cb st tx =
      { st with balances :=
          addBalance (subBalance st.balances tx.sender tx.value) tx.toAddr tx.value } := by
  simp only [applyTx, he]

theorem applyTx_eq_of_some (cfg : ChainConfig) (cb : Address) (st : ChainState)
    (tx : Tx) (e : ReceiverAddressPair) (he : signupEntry cfg st.priv tx = some e) :
    applyTx cfg cb st tx =
      applySignup cfg cb st tx e
        (addBalance (subBalance st.balances tx.sender tx.value) tx.toAddr tx.value) := by
  simp only [applyTx, he]

theorem applyTx_priv (cfg : ChainConfig) (cb : Address) (st : ChainState) (tx : Tx) :
    (applyTx cfg cb st tx).priv = st.priv := by
  cases he : signupEntry cfg st.priv tx with
  | none => rw [applyTx_eq_of_none cfg cb st tx he]
  | some e => rw [applyTx_eq_of_some cfg cb st tx e he]; rfl

theorem foldl_applyTx_priv (cfg : ChainConfig) (cb : Address) (txs : List Tx) :
    ∀ st : ChainState, (txs.foldl (applyTx cfg cb) st).priv = st.priv := by
  induction txs with
  | nil => intro st; rfl
  | cons tx rest ih =>
    intro st
    rw [List.foldl_cons, ih, applyTx_priv]

theorem applyBlock_priv (cfg : ChainConfig) (cb : Address) (st : ChainState)
    (txs : List Tx) : (applyBlock cfg cb st txs).priv = st.priv := by
  rw [applyBlock]
  show (txs.foldl (applyTx cfg cb) st).priv = st.priv
  exact foldl_applyTx_priv cfg cb txs st

theorem applyTx_balance_coinbase (cfg : ChainConfig) (cb : Address) (st : ChainState)
    (tx : Tx) (hcb : cb ∉ txParties cfg st.priv tx) :
    (applyTx cfg cb st tx).balances cb =
      st.balances cb + (if isSignupTx cfg st.priv tx then BlockReward else 0) := by
  cases he : signupEntry cfg st.priv tx with
  | none =>
    rw [txParties, he] at hcb
    simp only [List.mem_cons, List.not_mem_nil, or_false, not_or] at hcb
    rw [applyTx_eq_of_none cfg cb st tx he]
    simp only [isSignupTx, he, Option.isSome_none, Bool.false_eq_true, if_false]
    show addBalance (subBalance st.balances tx.sender tx.value) tx.toAddr tx.value cb =
      st.balances cb + 0
    rw [addBalance_ne _ _ _ hcb.2, subBalance_ne _ _ _ hcb.1]
    exact (Nat.add_zero _).symm
  | some e =>
    rw [txParties, he] at hcb
    simp only [List.mem_cons, not_or] at hcb
    obtain ⟨hs, ht, hr, hf, hanc⟩ := hcb
    rw [applyTx_eq_of_some cfg cb st tx e he]
    simp only [isSignupTx, he, Option.isSome_some, if_true]
    show (applySignup cfg cb st tx e
      (addBalance (subBalance st.balances tx.sender tx.value) tx.toAddr tx.value)).balances cb =
      st.balances cb + BlockReward
    rw [applySignup]
    show addBalance _ cb BlockReward cb = st.balances cb + BlockReward
    rw [addBalance_self]
    congr 1
    rw [addBalance_ne _ _ _ hr,
      creditList_of_not_mem _ _ _ fun p hp hpc => hanc (by
        rw [← hpc]
        exact (List.of_mem_zip hp).1),
      addBalance_ne _ _ _ hr, addBalance_ne _ _ _ hf, addBalance_ne _ _ _ ht,
      addBalance_ne _ _ _ ht, subBalance_ne _ _ _ hs]

theorem foldl_applyTx_balance_coinbase (cfg : ChainConfig) (cb : Address)
    (txs : List Tx) :
    ∀ st : ChainState, (∀ tx ∈ txs, cb ∉ txParties cfg st.priv tx) →
      (txs.foldl (applyTx cfg cb) st).balances cb =
        st.balances cb + BlockReward * signupCount cfg st.priv txs := by
  induction txs with
  | nil => intro st _; simp [signupCount]
  | cons tx rest ih =>
    intro st h
    have hpriv := applyTx_priv cfg cb st tx
    rw [List.foldl_cons,
      ih (applyTx cfg cb st tx) (by
        intro t htm
        rw [hpriv]
        exact h t (List.mem_cons_of_mem _ htm)),
      hpriv,
      applyTx_balance_coinbase cfg cb st tx (h tx (List.mem_cons_self _ _)),
      signupCount, signupCount, List.filter_cons]
    cases hsig : isSignupTx cfg st.priv tx with
    | false => simp
    | true => simp; ring

theorem applyTx_counters_of_none (cfg : ChainConfig) (cb : Address) (st : ChainState)
    (tx : Tx) (he : signupEntry cfg st.priv tx = none) :
    (applyTx cfg cb st tx).nSignups = st.nSignups ∧
    (applyTx cfg cb st tx).totalWei = st.totalWei := by
  rw [applyTx_eq_of_none cfg cb st tx he]
  exact ⟨rfl, rfl⟩

theorem applyTx_counters_of_some (cfg : ChainConfig) (cb : Address) (st : ChainState)
    (tx : Tx) (e : ReceiverAddressPair) (he : signupEntry cfg st.priv tx = some e) :
    (applyTx cfg cb st tx).nSignups = st.nSignups + 1 ∧
    (applyTx cfg cb st tx).totalWei = st.totalWei + (cfg.schedule st.nSignups).Total
      + CalculateTxManagementFee (cfg.schedule st.nSignups) st.nSignups st.totalWei := by
  rw [applyTx_eq_of_some cfg cb st tx e he]
  exact ⟨rfl, rfl⟩

theorem isSignupTx_of_none (cfg : ChainConfig) (priv : Address → Option ReceiverAddressPair)
    (tx : Tx) (he : signupEntry cfg priv tx = none) :
    isSignupTx cfg priv tx = false := by
  simp [isSignupTx, he]

theorem isSignupTx_of_some (cfg : ChainConfig) (priv : Address → Option ReceiverAddressPair)
    (tx : Tx) (e : ReceiverAddressPair) (he : signupEntry cfg priv tx = some e) :
    isSignupTx cfg priv tx = true := by
  simp [isSignupTx, he]

theorem signupCount_cons (cfg : ChainConfig) (priv : Address → Option ReceiverAddressPair)
    (tx : Tx) (rest : List Tx) :
    signupCount cfg priv (tx :: rest) =
      (if isSignupTx cfg priv tx then 1 else 0) + signupCount cfg priv rest := by
  rw [signupCount, signupCount, List.filter_cons]
  cases isSignupTx cfg priv tx
  · simp
  · simp [Nat.add_comm]

theorem foldl_applyTx_counters (cfg : ChainConfig) (cb : Address) (txs : List Tx) :
    ∀ st : ChainState,
      (txs.foldl (applyTx cfg cb) st).nSignups =
        st.nSignups + signupCount cfg st.priv txs ∧
      (txs.foldl (applyTx cfg cb) st).totalWei =
        st.totalWei + (blockSignupSums cfg st.priv txs st.nSignups st.totalWei).1
          + (blockSignupSums cfg st.priv txs st.nSignups st.totalWei).2 := by
  induction txs with
  | nil =>
    intro st
    simp [signupCount, blockSignupSums]
  | cons tx rest ih =>
    intro st
    obtain ⟨ihn, iht⟩ := ih (applyTx cfg cb st tx)
    rw [applyTx_priv cfg cb st tx] at ihn iht
    rw [List.foldl_cons]
    cases he : signupEntry cfg st.priv tx with
    | none =>
      obtain ⟨hn, ht⟩ := applyTx_counters_of_none cfg cb st tx he
      constructor
      · rw [ihn, hn, signupCount_cons, isSignupTx_of_none cfg st.priv tx he]
        simp
      · rw [iht, hn, ht]
        simp only [blockSignupSums, he]
    | some e =>
      obtain ⟨hn, ht⟩ := applyTx_counters_of_some cfg cb st tx e he
      constructor
      · rw [ihn, hn, signupCount_cons, isSignupTx_of_some cfg st.priv tx e he]
        simp
        exact Nat.add_assoc st.nSignups 1 _
      · rw [iht, hn, ht]
        simp only [blockSignupSums, he]
        ring

theorem applySignup_balance_member (cfg : ChainConfig) (cb : Address) (st : ChainState)
    (tx : Tx) (e : ReceiverAddressPair) (bal0 : Address → Wei)
    (h1 : tx.toAddr ≠ e.Receiver) (h2 : tx.toAddr ≠ e.URFF) (h3 : tx.toAddr ≠ cb)
    (h5 : tx.toAddr ∉ resolveAncestors cfg.reader maxAncestors tx.data) :
    (applySignup cfg cb st tx e bal0).balances tx.toAddr =
      bal0 tx.toAddr + (cfg.schedule st.nSignups).SignupReward := by
  rw [applySignup]
  show addBalance _ cb BlockReward tx.toAddr = _
  rw [addBalance_ne _ _ _ h3]
  show addBalance _ e.Receiver _ tx.toAddr = _
  rw [addBalance_ne _ _ _ h1,
    creditList_of_not_mem _ _ _ fun p hp hpc => h5 (by
      rw [← hpc]; exact (List.of_mem_zip hp).1),
    addBalance_ne _ _ _ h1, addBalance_ne _ _ _ h2, addBalance_self]

theorem applySignup_balance_receiver (cfg : ChainConfig) (cb : Address) (st : ChainState)
    (tx : Tx) (e : ReceiverAddressPair) (bal0 : Address → Wei)
    (h1 : e.Receiver ≠ tx.toAddr) (h2 : e.Receiver ≠ e.URFF) (h3 : e.Receiver ≠ cb)
    (h5 : e.Receiver ∉ resolveAncestors cfg.reader maxAncestors tx.data) :
    (applySignup cfg cb st tx e bal0).balances e.Receiver =
      bal0 e.Receiver
        + CalculateTxManagementFee (cfg.schedule st.nSignups) st.nSignups st.totalWei
        + signupRemainder (cfg.schedule st.nSignups)
            (resolveAncestors cfg.reader maxAncestors tx.data) := by
  rw [applySignup]
  show addBalance _ cb BlockReward e.Receiver = _
  rw [addBalance_ne _ _ _ h3]
  show addBalance _ e.Receiver _ e.Receiver = _
  rw [addBalance_self]
  congr 1
  rw [creditList_of_not_mem _ _ _ fun p hp hpc => h5 (by
      rw [← hpc]; exact (List.of_mem_zip hp).1),
    addBalance_self, addBalance_ne _ _ _ h2, addBalance_ne _ _ _ h1]

theorem applySignup_balance_ancestor (cfg : ChainConfig) (cb : Address) (st : ChainState)
    (tx : Tx) (e : ReceiverAddressPair) (bal0 : Address → Wei) (k : Nat)
    (hnd : (resolveAncestors cfg.reader maxAncestors tx.data).Nodup)
    (hk : k < (resolveAncestors cfg.reader maxAncestors tx.data).length)
    (hlen : (resolveAncestors cfg.reader maxAncestors tx.data).length ≤
      (cfg.schedule st.nSignups).MembersSignupRewards.length)
    (hat : (resolveAncestors cfg.reader maxAncestors tx.data).getD k 0 ≠ tx.toAddr)
    (har : (resolveAncestors cfg.reader maxAncestors tx.data).getD k 0 ≠ e.Receiver)
    (haf : (resolveAncestors cfg.reader maxAncestors tx.data).getD k 0 ≠ e.URFF)
    (hacb : (resolveAncestors cfg.reader maxAncestors tx.data).getD k 0 ≠ cb) :
    (applySignup cfg cb st tx e bal0).balances
        ((resolveAncestors cfg.reader maxAncestors tx.data).getD k 0) =
      bal0 ((resolveAncestors cfg.reader maxAncestors tx.data).getD k 0)
        + (cfg.schedule st.nSignups).MembersSignupRewards.getD k 0 := by
  rw [applySignup]
  show addBalance _ cb BlockReward _ = _
  rw [addBalance_ne _ _ _ hacb]
  show addBalance _ e.Receiver _ _ = _
  rw [addBalance_ne _ _ _ har]
  show creditList _ (ancestorPairs _ _) _ = _
  rw [ancestorPairs, creditList_zip_getD _ _ _ k hnd hk hlen,
    addBalance_ne _ _ _ har, addBalance_ne _ _ _ haf, addBalance_ne _ _ _ hat]

theorem baseRewards_WF : baseRewards.WF := by
  unfold RewardSet.WF
  exact ⟨by decide, by decide, by decide⟩

theorem cfgW_schedule_WF : (cfgW.schedule stW.nSignups).WF := by
  have h : cfgW.schedule stW.nSignups = baseRewards := by decide
  rw [h]
  exact baseRewards_WF

/-- C1: for a privileged-origin signup on a fresh chain (the privileged
sender sends `v` wei, `v ≠ 0`, to a fresh address X with data `[0x01]`,
nSignupsPrev = 0, totalWeiPrev = 0), the recipient X is credited the fixed
signup reward of 2000 UR on top of the transferred value, independent of the
transaction's value. -/
theorem privileged_signup_fixed_reward (cfg : ChainConfig) (cb P X : Address)
    (st : ChainState) (v : Wei) (e : ReceiverAddressPair)
    (hsched : cfg.schedule = defaultSchedule)
    (hn : st.nSignups = 0) (_ht : st.totalWei = 0)
    (hP : st.priv P = some e) (hv : v ≠ 0)
    (hXP : X ≠ P) (hXr : X ≠ e.Receiver) (hXf : X ≠ e.URFF) (hXcb : X ≠ cb) :
    (applyBlock cfg cb st [⟨P, X, v, [1]⟩]).balances X =
      st.balances X + v + 2000 * oneUR := by
  have he : signupEntry cfg st.priv ⟨P, X, v, [1]⟩ = some e := by
    simp [signupEntry, classify, hP, hv]
  have hanc : resolveAncestors cfg.reader maxAncestors (Tx.mk P X v [1]).data = [] := rfl
  rw [applyBlock]
  show (finalize cb (applyTx cfg cb st ⟨P, X, v, [1]⟩)).balances X = _
  rw [finalize]
  show addBalance (applyTx cfg cb st ⟨P, X, v, [1]⟩).balances cb BlockReward X = _
  rw [addBalance_ne _ _ _ hXcb, applyTx_eq_of_some cfg cb st _ e he,
    applySignup_balance_member cfg cb st _ e _ hXr hXf hXcb (by rw [hanc]; exact List.not_mem_nil X)]
  show addBalance (subBalance st.balances P v) X v X + _ = _
  rw [addBalance_self, subBalance_ne _ _ _ hXP, hsched, hn]
  congr 1

/-- Concrete witness for privileged_signup_fixed_reward: sender 1 signs up
fresh address 8 with 1 wei on the fresh chain. -/
theorem privileged_signup_fixed_reward_witness :
    (applyBlock cfgW 9 stW [⟨1, 8, 1, [1]⟩]).balances 8 =
      stW.balances 8 + 1 + 2000 * oneUR :=
  privileged_signup_fixed_reward cfgW 9 1 8 stW 1 ⟨2, 3⟩ rfl rfl rfl rfl
    (by decide) (by decide) (by decide) (by decide) (by decide)

/-- C2: over one block, the coinbase is credited exactly
`BlockReward * (1 + number of signup transactions in the block)`: one
unconditional `BlockReward` at finalization plus one additional
`BlockReward` per signup transaction, provided the coinbase is not itself a
party of any transaction of the block. -/
theorem coinbase_block_reward (cfg : ChainConfig) (cb : Address) (st : ChainState)
    (txs : List Tx) (h : ∀ tx ∈ txs, cb ∉ txParties cfg st.priv tx) :
    (applyBlock cfg cb st txs).balances cb =
      st.balances cb + BlockReward * (1 + signupCount cfg st.priv txs) := by
  rw [applyBlock, finalize]
  show addBalance (txs.foldl (applyTx cfg cb) st).balances cb BlockReward cb = _
  rw [addBalance_self, foldl_applyTx_balance_coinbase cfg cb txs st h]
  ring

/-- Concrete witness for coinbase_block_reward: one signup in the block,
coinbase 9. -/
theorem coinbase_block_reward_witness :
    (applyBlock cfgW 9 stW [txSignupW]).balances 9 =
      stW.balances 9 + BlockReward * (1 + signupCount cfgW stW.priv [txSignupW]) :=
  coinbase_block_reward cfgW 9 stW [txSignupW] (by decide)

/-- C3: the management-fee predicate returns true iff `nSignups = 0` or the
integer quotient `totalWei / nSignups` is at most 10000 UR, and for a signup
the fee is credited to the entry's receiver exactly when the predicate holds
on the counters visible before the signup (the parent-visible counters). -/
theorem management_fee_gate (cfg : ChainConfig) (cb : Address) (st : ChainState)
    (tx : Tx) (e : ReceiverAddressPair)
    (he : signupEntry cfg st.priv tx = some e)
    (hs : e.Receiver ≠ tx.sender) (hto : e.Receiver ≠ tx.toAddr)
    (hf : e.Receiver ≠ e.URFF) (hcb : e.Receiver ≠ cb)
    (hanc : e.Receiver ∉ resolveAncestors cfg.reader maxAncestors tx.data) :
    (∀ n t : Nat, managementFeePredicate n t = true ↔ (n = 0 ∨ t / n ≤ 10000 * oneUR)) ∧
    (applyTx cfg cb st tx).balances e.Receiver =
      st.balances e.Receiver +
        (if managementFeePredicate st.nSignups st.totalWei
          then (cfg.schedule st.nSignups).ManagementFee else 0) +
        signupRemainder (cfg.schedule st.nSignups)
          (resolveAncestors cfg.reader maxAncestors tx.data) := by
  constructor
  · intro n t
    rw [managementFeePredicate, Big10k]
    exact decide_eq_true_iff
  · rw [applyTx_eq_of_some cfg cb st tx e he,
      applySignup_balance_receiver cfg cb st tx e _ hto hf hcb hanc,
      addBalance_ne _ _ _ hto, subBalance_ne _ _ _ hs]
    rfl

/-- Concrete witness for management_fee_gate at the fresh-chain signup
(receiver 2 of the privileged entry). -/
theorem management_fee_gate_witness :
    (∀ n t : Nat, managementFeePredicate n t = true ↔ (n = 0 ∨ t / n ≤ 10000 * oneUR)) ∧
    (applyTx cfgW 9 stW txSignupW).balances 2 =
      stW.balances 2 +
        (if managementFeePredicate stW.nSignups stW.totalWei
          then (cfgW.schedule stW.nSignups).ManagementFee else 0) +
        signupRemainder (cfgW.schedule stW.nSignups)
          (resolveAncestors cfgW.reader maxAncestors txSignupW.data) :=
  management_fee_gate cfgW 9 stW txSignupW ⟨2, 3⟩ (by decide) (by decide) (by decide)
    (by decide) (by decide) (by decide)

/-- C4: for every block with parent-visible state, the header counter deltas
are exactly: nSignups grows by the number of transactions processed as
signups, and totalWei grows by `BlockReward` plus the sum of the per-signup
reward totals plus the management fees actually credited in the block. -/
theorem header_counter_deltas (cfg : ChainConfig) (cb : Address) (st : ChainState)
    (txs : List Tx) :
    (applyBlock cfg cb st txs).nSignups = st.nSignups + signupCount cfg st.priv txs ∧
    (applyBlock cfg cb st txs).totalWei =
      st.totalWei + BlockReward
        + (blockSignupSums cfg st.priv txs st.nSignups st.totalWei).1
        + (blockSignupSums cfg st.priv txs st.nSignups st.totalWei).2 := by
  obtain ⟨hn, ht⟩ := foldl_applyTx_counters cfg cb txs st
  constructor
  · show (txs.foldl (applyTx cfg cb) st).nSignups = _
    exact hn
  · show (txs.foldl (applyTx cfg cb) st).totalWei + BlockReward = _
    rw [ht]
    ring

/-- C5: for every signup, the undistributed remainder credited to the
privileged entry's receiver is non-negative (the paid ancestor credits never
exceed the pool) and equals totalSignupRewards minus the ancestor credits
actually paid; it is zero when the referral chain is 7 deep. -/
theorem signup_remainder_correct (cfg : ChainConfig) (cb : Address) (st : ChainState)
    (tx : Tx) (e : ReceiverAddressPair)
    (he : signupEntry cfg st.priv tx = some e)
    (hwf : (cfg.schedule st.nSignups).WF)
    (hs : e.Receiver ≠ tx.sender) (hto : e.Receiver ≠ tx.toAddr)
    (hf : e.Receiver ≠ e.URFF) (hcb : e.Receiver ≠ cb)
    (hanc : e.Receiver ∉ resolveAncestors cfg.reader maxAncestors tx.data) :
    creditedAmount (cfg.schedule st.nSignups)
        (resolveAncestors cfg.reader maxAncestors tx.data)
      ≤ (cfg.schedule st.nSignups).TotalSignupRewards ∧
    (signupRemainder (cfg.schedule st.nSignups)
        (resolveAncestors cfg.reader maxAncestors tx.data) : Int) =
      ((cfg.schedule st.nSignups).TotalSignupRewards : Int)
        - (creditedAmount (cfg.schedule st.nSignups)
            (resolveAncestors cfg.reader maxAncestors tx.data) : Int) ∧
    ((resolveAncestors cfg.reader maxAncestors tx.data).length = 7 →
      signupRemainder (cfg.schedule st.nSignups)
        (resolveAncestors cfg.reader maxAncestors tx.data) = 0) ∧
    (applyTx cfg cb st tx).balances e.Receiver =
      st.balances e.Receiver
        + CalculateTxManagementFee (cfg.schedule st.nSignups) st.nSignups st.totalWei
        + signupRemainder (cfg.schedule st.nSignups)
            (resolveAncestors cfg.reader maxAncestors tx.data) := by
  refine ⟨creditedAmount_le _ _ hwf, ?_, ?_, ?_⟩
  · rw [signupRemainder, Nat.cast_sub (creditedAmount_le _ _ hwf)]
  · intro h7
    rw [signupRemainder, creditedAmount_eq_take_sum, h7, ← hwf.1, List.take_length,
      hwf.2.1, Nat.sub_self]
  · rw [applyTx_eq_of_some cfg cb st tx e he,
      applySignup_balance_receiver cfg cb st tx e _ hto hf hcb hanc,
      addBalance_ne _ _ _ hto, subBalance_ne _ _ _ hs]

/-- Concrete witness for signup_remainder_correct at the fresh-chain
privileged signup. -/
theorem signup_remainder_correct_witness :
    creditedAmount (cfgW.schedule stW.nSignups)
        (resolveAncestors cfgW.reader maxAncestors txSignupW.data)
      ≤ (cfgW.schedule stW.nSignups).TotalSignupRewards ∧
    (signupRemainder (cfgW.schedule stW.nSignups)
        (resolveAncestors cfgW.reader maxAncestors txSignupW.data) : Int) =
      ((cfgW.schedule stW.nSignups).TotalSignupRewards : Int)
        - (creditedAmount (cfgW.schedule stW.nSignups)
            (resolveAncestors cfgW.reader maxAncestors txSignupW.data) : Int) ∧
    ((resolveAncestors cfgW.reader maxAncestors txSignupW.data).length = 7 →
      signupRemainder (cfgW.schedule stW.nSignups)
        (resolveAncestors cfgW.reader maxAncestors txSignupW.data) = 0) ∧
    (applyTx cfgW 9 stW txSignupW).balances 2 =
      stW.balances 2
        + CalculateTxManagementFee (cfgW.schedule stW.nSignups) stW.nSignups stW.totalWei
        + signupRemainder (cfgW.schedule stW.nSignups)
            (resolveAncestors cfgW.reader maxAncestors txSignupW.data) :=
  signup_remainder_correct cfgW 9 stW txSignupW ⟨2, 3⟩ (by decide) cfgW_schedule_WF
    (by decide) (by decide) (by decide) (by decide) (by decide)

/-- C6: for every member-origin (or any) signup, at most 7 ancestors are
credited, and the k-th resolved ancestor (0-indexed, nearest first) is
credited exactly MembersSignupRewards[k]. -/
theorem ancestor_tier_credits (cfg : ChainConfig) (cb : Address) (st : ChainState)
    (tx : Tx) (e : ReceiverAddressPair) (k : Nat)
    (he : signupEntry cfg st.priv tx = some e)
    (hwf : (cfg.schedule st.nSignups).WF)
    (hnd : (resolveAncestors cfg.reader maxAncestors tx.data).Nodup)
    (hk : k < (resolveAncestors cfg.reader maxAncestors tx.data).length)
    (has : (resolveAncestors cfg.reader maxAncestors tx.data).getD k 0 ≠ tx.sender)
    (hat : (resolveAncestors cfg.reader maxAncestors tx.data).getD k 0 ≠ tx.toAddr)
    (har : (resolveAncestors cfg.reader maxAncestors tx.data).getD k 0 ≠ e.Receiver)
    (haf : (resolveAncestors cfg.reader maxAncestors tx.data).getD k 0 ≠ e.URFF)
    (hacb : (resolveAncestors cfg.reader maxAncestors tx.data).getD k 0 ≠ cb) :
    (resolveAncestors cfg.reader maxAncestors tx.data).length ≤ 7 ∧
    (applyTx cfg cb st tx).balances
        ((resolveAncestors cfg.reader maxAncestors tx.data).getD k 0) =
      st.balances ((resolveAncestors cfg.reader maxAncestors tx.data).getD k 0)
        + (cfg.schedule st.nSignups).MembersSignupRewards.getD k 0 := by
  constructor
  · exact resolveAncestors_length_le cfg.reader maxAncestors tx.data
  · have hlen : (resolveAncestors cfg.reader maxAncestors tx.data).length ≤
        (cfg.schedule st.nSignups).MembersSignupRewards.length := by
      rw [hwf.1]
      exact resolveAncestors_length_le cfg.reader maxAncestors tx.data
    rw [applyTx_eq_of_some cfg cb st tx e he,
      applySignup_balance_ancestor cfg cb st tx e _ k hnd hk hlen hat har haf hacb,
      addBalance_ne _ _ _ hat, subBalance_ne _ _ _ has]

/-- Concrete witness for ancestor_tier_credits: the depth-2 chain
1 → 4 → 5 → 6; at the signup of 6, ancestor index 1 is address 4. -/
theorem ancestor_tier_credits_witness :
    (resolveAncestors cfgW.reader maxAncestors txC.data).length ≤ 7 ∧
    (applyTx cfgW 9 stW txC).balances
        ((resolveAncestors cfgW.reader maxAncestors txC.data).getD 1 0) =
      stW.balances ((resolveAncestors cfgW.reader maxAncestors txC.data).getD 1 0)
        + (cfgW.schedule stW.nSignups).MembersSignupRewards.getD 1 0 :=
  ancestor_tier_credits cfgW 9 stW txC ⟨2, 3⟩ 1 (by decide) cfgW_schedule_WF (by decide)
    (by decide) (by decide) (by decide) (by decide) (by decide) (by decide)

/-- C7: a transaction not processed as a signup leaves nSignups and totalWei
unchanged and produces no reward credits: the recipient gains exactly the
transferred value, the sender loses exactly it, every other balance is
untouched. -/
theorem non_signup_frame (cfg : ChainConfig) (cb : Address) (st : ChainState) (tx : Tx)
    (he : signupEntry cfg st.priv tx = none)
    (hne : tx.sender ≠ tx.toAddr)
    (hbal : tx.value ≤ st.balances tx.sender) :
    (applyTx cfg cb st tx).nSignups = st.nSignups ∧
    (applyTx cfg cb st tx).totalWei = st.totalWei ∧
    (applyTx cfg cb st tx).balances tx.toAddr = st.balances tx.toAddr + tx.value ∧
    (applyTx cfg cb st tx).balances tx.sender + tx.value = st.balances tx.sender ∧
    ∀ a : Address, a ≠ tx.sender → a ≠ tx.toAddr →
      (applyTx cfg cb st tx).balances a = st.balances a := by
  rw [applyTx_eq_of_none cfg cb st tx he]
  refine ⟨rfl, rfl, ?_, ?_, ?_⟩
  · show addBalance (subBalance st.balances tx.sender tx.value) tx.toAddr tx.value
        tx.toAddr = _
    rw [addBalance_self, subBalance_ne _ _ _ (Ne.symm hne)]
  · show addBalance (subBalance st.balances tx.sender tx.value) tx.toAddr tx.value
        tx.sender + tx.value = _
    rw [addBalance_ne _ _ _ hne, subBalance_self]
    exact Nat.sub_add_cancel hbal
  · intro a ha hat
    show addBalance (subBalance st.balances tx.sender tx.value) tx.toAddr tx.value a = _
    rw [addBalance_ne _ _ _ hat, subBalance_ne _ _ _ ha]

/-- Concrete witness for non_signup_frame: privileged sender 1 with balance
`10^9` sends 1000 wei to fresh address 8 with empty data (scenario A). -/
theorem non_signup_frame_witness :
    (applyTx cfgW 9 stW ⟨1, 8, 1000, []⟩).nSignups = stW.nSignups ∧
    (applyTx cfgW 9 stW ⟨1, 8, 1000, []⟩).totalWei = stW.totalWei ∧
    (applyTx cfgW 9 stW ⟨1, 8, 1000, []⟩).balances 8 = stW.balances 8 + 1000 ∧
    (applyTx cfgW 9 stW ⟨1, 8, 1000, []⟩).balances 1 + 1000 = stW.balances 1 ∧
    ∀ a : Address, a ≠ 1 → a ≠ 8 →
      (applyTx cfgW 9 stW ⟨1, 8, 1000, []⟩).balances a = stW.balances a :=
  non_signup_frame cfgW 9 stW ⟨1, 8, 1000, []⟩ (by decide) (by decide) (by decide)

/-- C8: the privileged mapping is fixed at genesis: no accepted block
mutates it — whenever block import succeeds, the resulting state's
privileged mapping is exactly the parent state's. -/
theorem privileged_mapping_immutable (cfg : ChainConfig) (st : ChainState)
    (b : BlockData) (st' : ChainState)
    (h : importBlock cfg st b = some st') : st'.priv = st.priv := by
  rw [importBlock] at h
  by_cases hc : (applyBlock cfg b.coinbase st b.txs).nSignups = b.headerNSignups ∧
      (applyBlock cfg b.coinbase st b.txs).totalWei = b.headerTotalWei
  · rw [if_pos hc] at h
    obtain rfl : applyBlock cfg b.coinbase st b.txs = st' := Option.some.inj h
    exact applyBlock_priv cfg b.coinbase st b.txs
  · rw [if_neg hc] at h
    exact Option.noConfusion h

/-- Concrete witness for privileged_mapping_immutable: importing the empty
block with correct header counters over the fresh chain. -/
theorem privileged_mapping_immutable_witness :
    importBlock cfgW stW ⟨9, [], 0, 7 * oneUR⟩ = some (applyBlock cfgW 9 stW []) ∧
    (applyBlock cfgW 9 stW []).priv = stW.priv := by
  have h : importBlock cfgW stW ⟨9, [], 0, 7 * oneUR⟩ = some (applyBlock cfgW 9 stW []) := by
    rw [importBlock, if_pos]
    constructor
    · decide
    · decide
  exact ⟨h, privileged_mapping_immutable cfgW stW ⟨9, [], 0, 7 * oneUR⟩ _ h⟩

/-- C9: the node's default network endpoints are HTTP RPC on TCP port 9595,
WebSocket RPC on TCP port 9596, and an IPC socket named `gur.ipc`. -/
theorem default_network_endpoints :
    DefaultHTTPPort = 9595 ∧ DefaultWSPort = 9596 ∧ DefaultIPCSocket = "gur.ipc" :=
  ⟨rfl, rfl, rfl⟩

/-- C10: `bzzhash` with fewer than 2 program arguments prints a usage message
and exits 0; when the named file cannot be opened it prints an error and
exits 1; when the tree chunker errors it prints the error to stderr and still
exits 0. -/
theorem bzzhash_exit_codes (env : BzzhashEnv) :
    (env.args.length < 2 →
      bzzhashMain env = ⟨0, ["Usage: bzzhash <file name>"], []⟩) ∧
    (2 ≤ env.args.length → env.openOk = false →
      bzzhashMain env = ⟨1, ["Error opening file " ++ env.args.getD 1 ""], []⟩) ∧
    (∀ m, 2 ≤ env.args.length → env.openOk = true → env.split = .err m →
      bzzhashMain env = ⟨0, [], [m]⟩) := by
  refine ⟨fun h => ?_, fun h2 hopen => ?_, fun m h2 hopen hsplit => ?_⟩
  · simp [bzzhashMain, h]
  · simp [bzzhashMain, Nat.not_lt.mpr h2, hopen]
  · simp [bzzhashMain, Nat.not_lt.mpr h2, hopen, hsplit]

/-- Concrete witness for `bzzhash_exit_codes` at its three scenarios. -/
theorem bzzhash_exit_codes_witness :
    bzzhashMain ⟨["bzzhash"], true, .ok "key"⟩ = ⟨0, ["Usage: bzzhash <file name>"], []⟩ ∧
    bzzhashMain ⟨["bzzhash", "f"], false, .ok "key"⟩ =
      ⟨1, ["Error opening file " ++ "f"], []⟩ ∧
    bzzhashMain ⟨["bzzhash", "f"], true, .err "boom"⟩ = ⟨0, [], ["boom"]⟩ :=
  ⟨(bzzhash_exit_codes ⟨["bzzhash"], true, .ok "key"⟩).1 (by decide),
   (bzzhash_exit_codes ⟨["bzzhash", "f"], false, .ok "key"⟩).2.1 (by decide) rfl,
   (bzzhash_exit_codes ⟨["bzzhash", "f"], true, .err "boom"⟩).2.2 "boom" (by decide) rfl rfl⟩

end GoUR
